import Mathlib

/-!
# Verification of cheflib's pagination, entity and data-bag-item cipher layers

Shallow embedding of the core logic of the `cheflib` Python library:

* `Chef._get_paginated_response` (cheflib/cheflib.py) — the search/listing
  paginator with bounded concurrent fan-out,
* `Entity` / `EntityManager` (cheflib/entities/base.py) — lazy cached data,
  copy-on-write save, delete, membership test,
* the data-bag-item cipher layer (cheflib/entities/databagitem.py) —
  envelope detection, version-3 AES-GCM encrypt/decrypt with base64 and
  60-column line wrapping.

HTTP transport, AES itself, SHA-256 and the JSON (de)serializer are external
collaborators of the library; they appear as parameters of the embedded
functions, constrained only by the hypotheses of the individual theorems.
-/

namespace Cheflib

/-! ## Configuration constants (cheflib/configuration.py, Chef.__init__) -/

/-- `MAX_ROW_COUNT = 1000` from configuration.py. -/
def MAX_ROW_COUNT : Nat := 1000

/-- `self._max_http_workers = 4` set in `Chef.__init__`: the bound on the
number of concurrently in-flight page requests. -/
def maxHttpWorkers : Nat := 4

/-! ## Pagination engine (`Chef._get_paginated_response`)

The generator issues a first request (`start=0`), yields the first page,
reads `total`, and if `total > row_count` submits one future per further
start offset `range(row_count, total, row_count)` to a thread pool, then
yields the rows of each future in completion order, dropping any future
whose processing raises.  We model the server as a function from start
offset to an optional response (`none` = the request or `response.json()`
raised), and the completion order as an arbitrary permutation of the
submitted offsets. -/

/-- Python `range(start, stop, step)` as a list, for positive `step`. -/
def pyRange (first stop step : Nat) : List Nat :=
  List.range' first ((stop - first + step - 1) / step) step

/-- The JSON body of a listing/search response, as read by
`_get_paginated_response`: `response_data.get('total', 0)`,
`response_data.get('rows', response_data.items())`.  `total`/`rows` are the
optional entries of the decoded dict; `items` is the dict's own item
sequence, used as the fallback when `'rows'` is absent (the direct-listing
shape, where the body is a plain name-to-URL mapping). -/
structure RespBody (β : Type) where
  total : Option Nat
  rows : Option (List β)
  items : List β

/-- A session response: success flag plus decoded JSON body. -/
structure Response (β : Type) where
  ok : Bool
  body : RespBody β

/-- `response_data.get('total', 0)` on the first page. -/
def firstTotal {β : Type} (first : Response β) : Nat :=
  first.body.total.getD 0

/-- What the first page yields:
`response_data.get('rows', response_data.items())`. -/
def firstPageYield {β : Type} (first : Response β) : List β :=
  first.body.rows.getD first.body.items

/-- The records one additional-page future contributes.  The `try` block
around `future.result()` / `response.json()` / `yield from
response_data.get('rows')` catches every exception, so a raised request, an
undecodable body or a body without a `'rows'` list contributes nothing.
Note the success flag of additional pages is never inspected. -/
def extraPageRows {β : Type} (res : Option (Response β)) : List β :=
  match res with
  | none => []
  | some r => r.body.rows.getD []

/-- The start offsets of the additional page requests submitted to the
executor: `range(row_count, total, row_count)`, and only when the first
response was ok and `total > row_count`. -/
def extraRequests {β : Type} (first : Response β) (rowCount : Nat) : List Nat :=
  if first.ok ∧ rowCount < firstTotal first then
    pyRange rowCount (firstTotal first) rowCount
  else []

/-- Total number of HTTP calls made by one run of the paginator. -/
def requestCount {β : Type} (first : Response β) (rowCount : Nat) : Nat :=
  1 + (extraRequests first rowCount).length

/-- The full record sequence yielded by `_get_paginated_response`, given the
first response, the server's behaviour on the additional offsets, and the
completion order of the futures (a permutation of the submitted offsets).
A non-ok first response makes the generator return without yielding. -/
def getPaginatedResponse {β : Type} (first : Response β)
    (server : Nat → Option (Response β)) (completion : List Nat)
    (rowCount : Nat) : List β :=
  if first.ok then
    if rowCount < firstTotal first then
      firstPageYield first ++
        (completion.map (fun s => extraPageRows (server s))).flatten
    else firstPageYield first
  else []

/-! ### Helper lemmas -/

theorem perm_flatten_of_perm {α : Type} {l₁ l₂ : List (List α)}
    (h : l₁.Perm l₂) : l₁.flatten.Perm l₂.flatten := by
  induction h with
  | nil => exact List.Perm.refl _
  | cons x _ ih => simpa using ih.append_left x
  | swap x y l =>
      simp only [List.flatten_cons, ← List.append_assoc]
      exact (List.perm_append_comm.append_right _)
  | trans _ _ ih₁ ih₂ => exact ih₁.trans ih₂

theorem extraRequests_eq {β : Type} (first : Response β) {rowCount : Nat}
    (hok : first.ok = true) (hlt : rowCount < firstTotal first) :
    extraRequests first rowCount =
      pyRange rowCount (firstTotal first) rowCount := by
  simp [extraRequests, hok, hlt]

theorem getPaginatedResponse_eq {β : Type} (first : Response β)
    (server : Nat → Option (Response β)) (completion : List Nat)
    {rowCount : Nat} (hok : first.ok = true)
    (hlt : rowCount < firstTotal first) :
    getPaginatedResponse first server completion rowCount =
      firstPageYield first ++
        (completion.map (fun s => extraPageRows (server s))).flatten := by
  simp [getPaginatedResponse, hok, hlt]

/-! ### Claim theorems about the paginator -/

/-- C1: when the first response of a search-query listing reports
`total > row_count`, the paginator submits exactly one additional request
per start offset `row_count, 2*row_count, … < total` — that is
`⌈(total − row_count) / row_count⌉` additional calls, each offset exactly
once, with the in-flight bound being the worker limit 4 — and the yielded
records are the first page's rows followed by the contributions of the
additional pages in completion order, a permutation of the same pages'
contributions in offset order (no order guarantee beyond the first page). -/
theorem pagination_fanout_correct {β : Type} (first : Response β)
    (server : Nat → Option (Response β)) (completion : List Nat)
    (rowCount total : Nat) (firstRows : List β)
    (hok : first.ok = true)
    (htot : first.body.total = some total)
    (hrows : first.body.rows = some firstRows)
    (hgt : rowCount < total) (hpos : 0 < rowCount)
    (hperm : completion.Perm (extraRequests first rowCount)) :
    (extraRequests first rowCount).length
        = (total - rowCount + (rowCount - 1)) / rowCount
    ∧ extraRequests first rowCount = pyRange rowCount total rowCount
    ∧ (extraRequests first rowCount).Nodup
    ∧ getPaginatedResponse first server completion rowCount
        = firstRows ++
            (completion.map (fun s => extraPageRows (server s))).flatten
    ∧ (getPaginatedResponse first server completion rowCount).Perm
        (firstRows ++
          ((pyRange rowCount total rowCount).map
            (fun s => extraPageRows (server s))).flatten)
    ∧ maxHttpWorkers = 4 := by
  have htot' : firstTotal first = total := by simp [firstTotal, htot]
  have hlt : rowCount < firstTotal first := by rwa [htot']
  have hreq : extraRequests first rowCount = pyRange rowCount total rowCount := by
    rw [extraRequests_eq first hok hlt, htot']
  have hyield : firstPageYield first = firstRows := by
    simp [firstPageYield, hrows]
  have hout := getPaginatedResponse_eq first server completion hok hlt
  refine ⟨?_, hreq, ?_, ?_, ?_, rfl⟩
  · rw [hreq]
    simp only [pyRange, List.length_range']
    congr 1
    omega
  · rw [hreq, pyRange]
    exact List.nodup_range' _ _ _ (by omega)
  · rw [hout, hyield]
  · rw [hout, hyield]
    refine List.Perm.append_left _ ?_
    have := (hperm.map (fun s => extraPageRows (server s)))
    have hflat := perm_flatten_of_perm this
    rwa [hreq] at hflat

/-- Closed instantiation of `pagination_fanout_correct`: a server reporting
`total = 5` with `row_count = 2` gets exactly the additional offsets
`[2, 4]` (⌈(5−2)/2⌉ = 2 calls) and yields the first page followed by the
futures' rows in completion order. -/
theorem pagination_fanout_correct_witness :
    (extraRequests
        (⟨true, ⟨some 5, some [10, 11], []⟩⟩ : Response Nat) 2).length
      = (5 - 2 + (2 - 1)) / 2
    ∧ extraRequests (⟨true, ⟨some 5, some [10, 11], []⟩⟩ : Response Nat) 2
        = pyRange 2 5 2
    ∧ (extraRequests (⟨true, ⟨some 5, some [10, 11], []⟩⟩ : Response Nat) 2).Nodup
    ∧ getPaginatedResponse (⟨true, ⟨some 5, some [10, 11], []⟩⟩ : Response Nat)
        (fun s => some ⟨true, ⟨none, some [s], []⟩⟩) [4, 2] 2
        = [10, 11] ++ ([[4], [2]] : List (List Nat)).flatten
    ∧ (getPaginatedResponse (⟨true, ⟨some 5, some [10, 11], []⟩⟩ : Response Nat)
        (fun s => some ⟨true, ⟨none, some [s], []⟩⟩) [4, 2] 2).Perm
        ([10, 11] ++
          ((pyRange 2 5 2).map
            (fun s => extraPageRows
              ((fun s => some (⟨true, ⟨none, some [s], []⟩⟩ : Response Nat)) s))).flatten)
    ∧ maxHttpWorkers = 4 := by
  have h := pagination_fanout_correct (β := Nat)
    ⟨true, ⟨some 5, some [10, 11], []⟩⟩
    (fun s => some ⟨true, ⟨none, some [s], []⟩⟩) [4, 2] 2 5 [10, 11]
    rfl rfl rfl (by decide) (by decide) (by decide)
  exact ⟨h.1, h.2.1, h.2.2.1, by rw [h.2.2.2.1]; rfl, h.2.2.2.2.1, h.2.2.2.2.2⟩

/-- C5: when the first response reports `total ≤ row_count` (in particular
for every direct, non-search listing, whose body has no `total` entry and
so reports 0), the paginator makes exactly one HTTP call, submits no
additional requests, and yields exactly the records of that single
response, in the server's original order. -/
theorem single_page_exactly_once {β : Type} (first : Response β)
    (server : Nat → Option (Response β)) (completion : List Nat)
    (rowCount : Nat) (hok : first.ok = true)
    (hle : firstTotal first ≤ rowCount) :
    getPaginatedResponse first server completion rowCount
        = firstPageYield first
    ∧ extraRequests first rowCount = []
    ∧ requestCount first rowCount = 1 := by
  have hnlt : ¬ rowCount < firstTotal first := by omega
  refine ⟨?_, ?_, ?_⟩
  · simp [getPaginatedResponse, hok, hnlt]
  · simp [extraRequests, hnlt]
  · simp [requestCount, extraRequests, hnlt]

/-- Closed instantiation of `single_page_exactly_once`: a direct listing
body (no `total`, no `rows`, only the name→URL items) is delivered as-is in
one call. -/
theorem single_page_exactly_once_witness :
    getPaginatedResponse
        (⟨true, ⟨none, none, [("a", 1), ("b", 2)]⟩⟩ : Response (String × Nat))
        (fun _ => none) [] MAX_ROW_COUNT
        = [("a", 1), ("b", 2)]
    ∧ extraRequests
        (⟨true, ⟨none, none, [("a", 1), ("b", 2)]⟩⟩ : Response (String × Nat))
        MAX_ROW_COUNT = []
    ∧ requestCount
        (⟨true, ⟨none, none, [("a", 1), ("b", 2)]⟩⟩ : Response (String × Nat))
        MAX_ROW_COUNT = 1 := by
  have h := single_page_exactly_once
    (⟨true, ⟨none, none, [("a", 1), ("b", 2)]⟩⟩ : Response (String × Nat))
    (fun _ => none) [] MAX_ROW_COUNT rfl (by decide)
  exact ⟨by rw [h.1]; rfl, h.2.1, h.2.2⟩

/-- C4 counterexample: the claim says a page request beyond the first with a
non-success response contributes no records, but the code never inspects the
success flag of additional pages — it only calls `response.json()` and
`yield from response_data.get('rows')` — so a non-success response whose
body still carries a `rows` list contributes those rows. -/
theorem failed_page_counterexample :
    extraPageRows
        (some (⟨false, ⟨none, some ["leaked"], []⟩⟩ : Response String))
      = ["leaked"]
    ∧ (["leaked"] : List String) ≠ [] := by
  exact ⟨rfl, by decide⟩

/-- C4 (amended): an additional page whose fetch raises (request exception,
body that fails to decode) or whose body lacks a `rows` list contributes no
records, is requested exactly once (never retried), no exception propagates
to the iterating caller (every exception inside the fan-out loop is caught),
and the rows of every other page that does return a `rows` list are still
delivered as a contiguous block of the output.  (The success flag of
additional responses is not consulted, so only these failure modes drop a
page.) -/
theorem failed_page_dropped {β : Type} (first : Response β)
    (server : Nat → Option (Response β)) (completion : List Nat)
    (rowCount total s : Nat) (firstRows : List β)
    (hok : first.ok = true)
    (htot : first.body.total = some total)
    (hrows : first.body.rows = some firstRows)
    (hgt : rowCount < total) (hpos : 0 < rowCount)
    (hfail : server s = none ∨ ∃ r, server s = some r ∧ r.body.rows = none) :
    extraPageRows (server s) = []
    ∧ (extraRequests first rowCount).count s ≤ 1
    ∧ ∀ t r rs, t ∈ completion → server t = some r → r.body.rows = some rs →
        rs.Sublist (getPaginatedResponse first server completion rowCount) := by
  have htot' : firstTotal first = total := by simp [firstTotal, htot]
  have hlt : rowCount < firstTotal first := by rwa [htot']
  refine ⟨?_, ?_, ?_⟩
  · rcases hfail with h | ⟨r, hr, hnone⟩
    · simp [extraPageRows, h]
    · simp [extraPageRows, hr, hnone]
  · have hnd : (extraRequests first rowCount).Nodup := by
      rw [extraRequests_eq first hok hlt, pyRange]
      exact List.nodup_range' _ _ _ (by omega)
    exact List.nodup_iff_count_le_one.1 hnd s
  · intro t r rs ht hr hrs
    have hout := getPaginatedResponse_eq first server completion hok hlt
    rw [hout]
    have hmem : extraPageRows (server t)
        ∈ completion.map (fun u => extraPageRows (server u)) :=
      List.mem_map_of_mem _ ht
    have hsub : (extraPageRows (server t)).Sublist
        (completion.map (fun u => extraPageRows (server u))).flatten :=
      List.sublist_flatten_of_mem hmem
    have hpage : extraPageRows (server t) = rs := by
      simp [extraPageRows, hr, hrs]
    rw [hpage] at hsub
    exact hsub.trans (List.sublist_append_right _ _)

/-- Closed instantiation of `failed_page_dropped`: with `total = 5`,
`row_count = 2`, offset 2 raising and offset 4 succeeding, offset 2
contributes nothing and is requested once, while offset 4's rows reach the
output. -/
theorem failed_page_dropped_witness :
    extraPageRows ((fun s => if s = 2 then none
        else some (⟨true, ⟨none, some [s], []⟩⟩ : Response Nat)) 2) = []
    ∧ (extraRequests (⟨true, ⟨some 5, some [10], []⟩⟩ : Response Nat) 2).count 2 ≤ 1
    ∧ ∀ t r rs, t ∈ [4, 2] →
        (fun s => if s = 2 then none
          else some (⟨true, ⟨none, some [s], []⟩⟩ : Response Nat)) t = some r →
        r.body.rows = some rs →
        rs.Sublist (getPaginatedResponse
          (⟨true, ⟨some 5, some [10], []⟩⟩ : Response Nat)
          (fun s => if s = 2 then none
            else some (⟨true, ⟨none, some [s], []⟩⟩ : Response Nat)) [4, 2] 2) := by
  exact failed_page_dropped
    (⟨true, ⟨some 5, some [10], []⟩⟩ : Response Nat)
    (fun s => if s = 2 then none
      else some (⟨true, ⟨none, some [s], []⟩⟩ : Response Nat))
    [4, 2] 2 5 2 [10] rfl rfl rfl (by decide) (by decide) (Or.inl rfl)

/-! ## Python values and dict primitives

The entity and cipher layers operate on decoded JSON, i.e. Python values.
Dicts are association lists with unique keys in insertion order. -/

/-- A Python/JSON value as manipulated by the library. -/
inductive PyVal where
  | pynone
  | pybool (b : Bool)
  | pyint (n : Int)
  | pystr (s : String)
  | pylist (xs : List PyVal)
  | pydict (fields : List (String × PyVal))

/-- The Python exceptions relevant to this code base. -/
inductive PyErr where
  | valueError
  | keyError
  | typeError
deriving DecidableEq

/-- `d.get(k)` / `d[k]` lookup on an embedded dict. -/
def pyLookup (d : List (String × PyVal)) (k : String) : Option PyVal :=
  (d.find? (fun kv => kv.1 = k)).map (fun kv => kv.2)

/-- `base.update(upd)` on Python dicts: existing keys keep their position
but take the updated value; new keys are appended in `upd` order. -/
def pyUpdate (base upd : List (String × PyVal)) : List (String × PyVal) :=
  base.map (fun kv =>
      match pyLookup upd kv.1 with
      | some v => (kv.1, v)
      | none => kv)
    ++ upd.filter (fun kv => (pyLookup base kv.1).isNone)

/-! ## Entity (cheflib/entities/base.py)

`Entity` holds a client handle, name, canonical URL and an optional cached
raw data dict.  The session collaborator is abstracted as functions from
URL (and body) to a response carrying a success flag, the raw text and the
decoded JSON body. -/

/-- A session response: success flag, raw text, decoded JSON dict. -/
structure SessionResponse where
  ok : Bool
  text : String
  json : List (String × PyVal)

/-- The mutable Lean-side image of an `Entity`: name, URL and the
`_data` cache (`none` until first fetched or after invalidation). -/
structure EntityState where
  name : String
  url : String
  dataCache : Option (List (String × PyVal))

/-- The exceptions raised by the entity layer.  `Entity.data` raises a bare
`InvalidObject` (no message); `Entity._save_data` raises
`InvalidObject(response.text)`; `Chef._create` raises `CreateFailed` with a
message embedding `response.text`. -/
inductive ChefError where
  | invalidObject (text : Option String)
  | createFailed (msg : String)
  | pyError (e : PyErr)
deriving DecidableEq

/-- `Entity.data` (property getter): a cached value is returned without any
HTTP call; otherwise a GET against the entity URL either fills the cache or
raises `InvalidObject`.  The returned `Bool` records whether a fetch
happened. -/
def entityData (get : String → SessionResponse) (st : EntityState) :
    Except ChefError (List (String × PyVal) × EntityState × Bool) :=
  match st.dataCache with
  | some d => .ok (d, st, false)
  | none =>
    let r := get st.url
    if r.ok then .ok (r.json, { st with dataCache := some r.json }, true)
    else .error (.invalidObject none)

/-- The PUT call issued by `Entity._save_data`. -/
structure PutCall where
  url : String
  body : List (String × PyVal)

/-- Outcome of `Entity._save_data`: the raised exception if any, the entity
state afterwards, and the PUT call that was issued (none when the initial
`self.data` read already raised). -/
structure SaveOutcome where
  error : Option ChefError
  state : EntityState
  call : Option PutCall

/-- `Entity._save_data(data)`: reads `self.data` (deep-copied), merges the
partial map into the copy, applies the entity-kind pre-save transform
(`_pre_save_data`, identity for the base kind), PUTs the full document to
the entity URL, raises `InvalidObject(response.text)` on a non-ok response,
and clears the cache (`self._data = None`) only on success. -/
def saveData (get : String → SessionResponse) (put : PutCall → SessionResponse)
    (preSave : List (String × PyVal) → List (String × PyVal))
    (st : EntityState) (data : List (String × PyVal)) : SaveOutcome :=
  match entityData get st with
  | .error e => { error := some e, state := st, call := none }
  | .ok (cur, st1, _) =>
    let payload := preSave (pyUpdate cur data)
    let call : PutCall := { url := st1.url, body := payload }
    let r := put call
    if r.ok then
      { error := none, state := { st1 with dataCache := none }, call := some call }
    else
      { error := some (.invalidObject (some r.text)), state := st1, call := some call }

/-- `Entity.delete`: one DELETE against the entity URL; the boolean
`response.ok` is returned and a failure is only logged, never raised (the
function is total). -/
def entityDelete (del : String → SessionResponse) (st : EntityState) : Bool :=
  (del st.url).ok

/-- Python `str()` of the scalar values that can appear as a `name`,
used in the `Chef._create` error message interpolation. -/
def pyValStr : PyVal → String
  | .pystr s => s
  | .pyint n => toString n
  | .pybool b => if b then "True" else "False"
  | .pynone => "None"
  | .pylist _ => ""
  | .pydict _ => ""

/-- `Chef._create(url, data)`: POST, raise
`CreateFailed(f"Failed to create '{data['name']}, reason:\n{response.text}")`
on a non-ok response, else return the decoded body. -/
def chefCreate (post : String → List (String × PyVal) → SessionResponse)
    (url : String) (data : List (String × PyVal)) :
    Except ChefError (List (String × PyVal)) :=
  let r := post url data
  if r.ok then .ok r.json
  else
    match pyLookup data "name" with
    | none => .error (.pyError .keyError)
    | some nm =>
      .error (.createFailed
        ("Failed to create '" ++ pyValStr nm ++ ", reason:\n" ++ r.text))

/-! ### Claim theorems about the entity layer -/

/-- C6: for an entity with cached data, a successful save of a partial
field map issues a single full-document PUT to the entity URL whose body is
the cached data merged with the partial map (`payload` is built from a deep
copy, so in the embedding the cache value itself is untouched) passed
through the entity-kind pre-save transform, raises nothing, and clears the
cache, so that the next `data` access performs a fresh GET and returns the
server's current body. -/
theorem save_merges_and_invalidates (get : String → SessionResponse)
    (put : PutCall → SessionResponse)
    (preSave : List (String × PyVal) → List (String × PyVal))
    (st : EntityState) (cached partialData : List (String × PyVal))
    (hcache : st.dataCache = some cached)
    (hput : (put { url := st.url, body := preSave (pyUpdate cached partialData) }).ok
              = true)
    (hget : (get st.url).ok = true) :
    saveData get put preSave st partialData
        = { error := none,
            state := { st with dataCache := none },
            call := some { url := st.url, body := preSave (pyUpdate cached partialData) } }
    ∧ entityData get { st with dataCache := none }
        = .ok ((get st.url).json,
               { st with dataCache := some (get st.url).json }, true) := by
  constructor
  · simp only [saveData, entityData, hcache, hput, if_true]
  · simp only [entityData, hget, if_true]

/-- Closed instantiation of `save_merges_and_invalidates` at a concrete
entity, cache, partial update and server. -/
theorem save_merges_and_invalidates_witness :
    saveData (fun _ => ⟨true, "", [("x", PyVal.pyint 9)]⟩)
        (fun _ => ⟨true, "", []⟩) id
        ⟨"n1", "http://e/n1", some [("a", PyVal.pyint 1)]⟩
        [("b", PyVal.pyint 2)]
        = { error := none,
            state := ⟨"n1", "http://e/n1", none⟩,
            call := some { url := "http://e/n1",
                           body := id (pyUpdate [("a", PyVal.pyint 1)]
                                         [("b", PyVal.pyint 2)]) } }
    ∧ entityData (fun _ => ⟨true, "", [("x", PyVal.pyint 9)]⟩)
        ⟨"n1", "http://e/n1", none⟩
        = .ok ([("x", PyVal.pyint 9)],
               ⟨"n1", "http://e/n1", some [("x", PyVal.pyint 9)]⟩, true) := by
  exact save_merges_and_invalidates
    (fun _ => ⟨true, "", [("x", PyVal.pyint 9)]⟩) (fun _ => ⟨true, "", []⟩) id
    ⟨"n1", "http://e/n1", some [("a", PyVal.pyint 1)]⟩
    [("a", PyVal.pyint 1)] [("b", PyVal.pyint 2)] rfl rfl rfl

/-- C10: for an entity with cached data, a save whose PUT fails raises
`InvalidObject` carrying the response text, leaves the cache exactly as it
was, and a subsequent `data` access returns the stale pre-save cache
without issuing any HTTP call. -/
theorem failed_save_keeps_stale_cache (get : String → SessionResponse)
    (put : PutCall → SessionResponse)
    (preSave : List (String × PyVal) → List (String × PyVal))
    (st : EntityState) (cached partialData : List (String × PyVal))
    (hcache : st.dataCache = some cached)
    (hput : (put { url := st.url, body := preSave (pyUpdate cached partialData) }).ok
              = false) :
    saveData get put preSave st partialData
        = { error := some (.invalidObject (some
              (put { url := st.url,
                     body := preSave (pyUpdate cached partialData) }).text)),
            state := st,
            call := some { url := st.url,
                           body := preSave (pyUpdate cached partialData) } }
    ∧ (saveData get put preSave st partialData).state.dataCache = some cached
    ∧ entityData get (saveData get put preSave st partialData).state
        = .ok (cached, st, false) := by
  have hsave : saveData get put preSave st partialData
      = { error := some (.invalidObject (some
            (put { url := st.url,
                   body := preSave (pyUpdate cached partialData) }).text)),
          state := st,
          call := some { url := st.url,
                         body := preSave (pyUpdate cached partialData) } } := by
    simp only [saveData, entityData, hcache, hput, Bool.false_eq_true, if_false]
  refine ⟨hsave, ?_, ?_⟩
  · rw [hsave, hcache]
  · rw [hsave]
    simp only [entityData, hcache]

/-- Closed instantiation of `failed_save_keeps_stale_cache`. -/
theorem failed_save_keeps_stale_cache_witness :
    saveData (fun _ => ⟨true, "", []⟩) (fun _ => ⟨false, "boom", []⟩) id
        ⟨"n1", "http://e/n1", some [("a", PyVal.pyint 1)]⟩ [("b", PyVal.pyint 2)]
        = { error := some (.invalidObject (some "boom")),
            state := ⟨"n1", "http://e/n1", some [("a", PyVal.pyint 1)]⟩,
            call := some { url := "http://e/n1",
                           body := id (pyUpdate [("a", PyVal.pyint 1)]
                                         [("b", PyVal.pyint 2)]) } }
    ∧ (saveData (fun _ => ⟨true, "", []⟩) (fun _ => ⟨false, "boom", []⟩) id
        ⟨"n1", "http://e/n1", some [("a", PyVal.pyint 1)]⟩
        [("b", PyVal.pyint 2)]).state.dataCache = some [("a", PyVal.pyint 1)]
    ∧ entityData (fun _ => ⟨true, "", []⟩)
        (saveData (fun _ => ⟨true, "", []⟩) (fun _ => ⟨false, "boom", []⟩) id
          ⟨"n1", "http://e/n1", some [("a", PyVal.pyint 1)]⟩
          [("b", PyVal.pyint 2)]).state
        = .ok ([("a", PyVal.pyint 1)],
               ⟨"n1", "http://e/n1", some [("a", PyVal.pyint 1)]⟩, false) := by
  exact failed_save_keeps_stale_cache
    (fun _ => ⟨true, "", []⟩) (fun _ => ⟨false, "boom", []⟩) id
    ⟨"n1", "http://e/n1", some [("a", PyVal.pyint 1)]⟩
    [("a", PyVal.pyint 1)] [("b", PyVal.pyint 2)] rfl rfl

/-- C9: a failed save raises `InvalidObject(response.text)` and a failed
create raises `CreateFailed` whose message embeds the server's diagnostic
text, while `delete` never raises: it returns `response.ok`, hence `false`
on any failed (or already-deleted) URL. -/
theorem mutation_raises_delete_returns (get : String → SessionResponse)
    (put : PutCall → SessionResponse)
    (preSave : List (String × PyVal) → List (String × PyVal))
    (st : EntityState) (cached partialData cdata : List (String × PyVal))
    (post : String → List (String × PyVal) → SessionResponse)
    (curl : String) (nm : PyVal) (del : String → SessionResponse)
    (hcache : st.dataCache = some cached)
    (hput : (put { url := st.url, body := preSave (pyUpdate cached partialData) }).ok
              = false)
    (hname : pyLookup cdata "name" = some nm)
    (hpost : (post curl cdata).ok = false) :
    (saveData get put preSave st partialData).error
        = some (.invalidObject (some
            (put { url := st.url,
                   body := preSave (pyUpdate cached partialData) }).text))
    ∧ (∃ pre, chefCreate post curl cdata
          = .error (.createFailed (pre ++ (post curl cdata).text)))
    ∧ entityDelete del st = (del st.url).ok := by
  refine ⟨?_, ?_, rfl⟩
  · simp only [saveData, entityData, hcache, hput, Bool.false_eq_true, if_false]
  · refine ⟨"Failed to create '" ++ pyValStr nm ++ ", reason:\n", ?_⟩
    simp only [chefCreate, hpost, Bool.false_eq_true, if_false, hname]

/-- Closed instantiation of `mutation_raises_delete_returns`, with the
delete response failing so that `delete` evaluates to `false` rather than
raising. -/
theorem mutation_raises_delete_returns_witness :
    (saveData (fun _ => ⟨true, "", []⟩) (fun _ => ⟨false, "save-err", []⟩) id
        ⟨"n1", "http://e/n1", some [("a", PyVal.pyint 1)]⟩ []).error
        = some (.invalidObject (some "save-err"))
    ∧ (∃ pre, chefCreate (fun _ _ => ⟨false, "create-err", []⟩) "http://e"
          [("name", PyVal.pystr "n2")]
          = .error (.createFailed (pre ++ "create-err")))
    ∧ entityDelete (fun _ => ⟨false, "gone", []⟩)
        ⟨"n1", "http://e/n1", some [("a", PyVal.pyint 1)]⟩ = false := by
  exact mutation_raises_delete_returns
    (fun _ => ⟨true, "", []⟩) (fun _ => ⟨false, "save-err", []⟩) id
    ⟨"n1", "http://e/n1", some [("a", PyVal.pyint 1)]⟩
    [("a", PyVal.pyint 1)] [] [("name", PyVal.pystr "n2")]
    (fun _ _ => ⟨false, "create-err", []⟩) "http://e" (PyVal.pystr "n2")
    (fun _ => ⟨false, "gone", []⟩) rfl rfl rfl rfl

/-! ## EntityManager membership test (cheflib/entities/base.py)

`EntityManager.__contains__(value)` calls
`self.filter(query=f'{self._primary_match_field}:{value}',
keys={'name': ['name']})` and takes the first yielded entity (default
`False`).  `filter(query, keys)` however forwards only the query:
`return self._get_entity_objects(query)` — the `keys` argument and any row
limit are dropped, so `_get_paginated_response` receives `keys=None`,
`max_row_count=MAX_ROW_COUNT` and therefore issues a plain GET search with
`rows=1000` and no field projection. -/

/-- The HTTP verb chosen by `_get_paginated_response`:
`'post' if keys else 'get'`. -/
inductive HttpMethod where
  | get
  | post
deriving DecidableEq

/-- The first search request issued by `_get_paginated_response` for a
search query: verb, query string, `rows`, `start` and the projection body
(`keys or {}`). -/
structure SearchRequest where
  method : HttpMethod
  q : String
  rows : Nat
  start : Nat
  keys : List (String × List String)
deriving DecidableEq

/-- Python truthiness of the optional `keys` argument
(`None` and `{}` are falsy). -/
def keysTruthy (keys : Option (List (String × List String))) : Bool :=
  match keys with
  | none => false
  | some l => !l.isEmpty

/-- The request built by `Chef._get_paginated_response(entity, query, keys,
max_row_count)` when a query is present:
`params = {'q': query, 'rows': max_row_count, 'start': 0}`,
verb POST exactly when `keys` is truthy, body `keys or {}`. -/
def paginatedSearchRequest (query : String)
    (keys : Option (List (String × List String))) (maxRowCount : Nat) :
    SearchRequest :=
  { method := if keysTruthy keys then .post else .get
  , q := query
  , rows := maxRowCount
  , start := 0
  , keys := keys.getD [] }

/-- The request produced by `EntityManager.filter(query, keys)`: `filter`
drops `keys` and `_get_entity_objects` passes `keys=None` and the default
`max_row_count=MAX_ROW_COUNT` to the paginator. -/
def managerFilterRequest (query : String)
    (keys : Option (List (String × List String))) : SearchRequest :=
  paginatedSearchRequest query none MAX_ROW_COUNT

/-- The search request behind `value in manager`
(`EntityManager.__contains__`). -/
def containsRequest (primaryMatchField value : String) : SearchRequest :=
  managerFilterRequest (primaryMatchField ++ ":" ++ value)
    (some [("name", ["name"])])

/-- Truthiness of `next(self.filter(...), False)`: true iff the search
yielded at least one entity. -/
def containsResult {β : Type} (hits : List β) : Bool :=
  !hits.isEmpty

/-- C7 evaluation at the failing input: the membership test for value
`web1` under primary match field `name` does build the query `name:web1`
and is truthy iff at least one hit comes back, but the request is a plain
GET with `rows = 1000` and an empty projection body — not the 1-row,
minimally-projected search the claim describes — because
`EntityManager.filter` ignores its `keys` argument. -/
theorem contains_request_eval :
    containsRequest "name" "web1"
        = { method := .get, q := "name:web1", rows := 1000, start := 0,
            keys := [] }
    ∧ (containsRequest "name" "web1").rows ≠ 1
    ∧ (containsRequest "name" "web1").keys = []
    ∧ (containsRequest "name" "web1").method ≠ .post
    ∧ containsResult ([] : List Nat) = false
    ∧ containsResult [("e" : String)] = true := by
  refine ⟨rfl, by decide, rfl, by decide, rfl, rfl⟩

/-! ## Data-bag item cipher layer (cheflib/entities/databagitem.py)

### Envelope detection (`_is_encrypted`)

`_is_encrypted` iterates over all keys of the item dict (including `id`);
for each value it evaluates `'version' in data[k]` (Python containment:
key test on dicts, substring test on strings, membership on lists,
`TypeError` otherwise), and when that holds compares `data[k]['version']`
with 3 (setting the flag) or with 1/2 (emitting a diagnostic only). -/

/-- Substring test on char lists (Python `needle in hay` for strings). -/
def strContainsAux (needle : List Char) : List Char → Bool
  | [] => needle.isEmpty
  | c :: rest => needle.isPrefixOf (c :: rest) || strContainsAux needle rest

/-- Python `needle in v` for a string needle. -/
def pyContainsStr (needle : String) : PyVal → Except PyErr Bool
  | .pydict fs => .ok (fs.any (fun kv => kv.1 = needle))
  | .pystr s => .ok (strContainsAux needle.toList s.toList)
  | .pylist xs => .ok (xs.any (fun x =>
      match x with
      | .pystr t => t = needle
      | _ => false))
  | _ => .error .typeError

/-- Python `v[k]` for a string key: lookup on dicts (`KeyError` when
missing), `TypeError` on every other value. -/
def pySubscript (v : PyVal) (k : String) : Except PyErr PyVal :=
  match v with
  | .pydict fs =>
    match pyLookup fs k with
    | some w => .ok w
    | none => .error .keyError
  | _ => .error .typeError

/-- Is a value the Python int 3 (`data[k]['version'] == 3`)? -/
def isVersionThree (w : PyVal) : Bool :=
  match w with
  | .pyint n => n == 3
  | _ => false

/-- The loop of `_is_encrypted`, threading the `encrypted` flag. -/
def isEncryptedLoop : List (String × PyVal) → Bool → Except PyErr Bool
  | [], acc => .ok acc
  | (_, v) :: rest, acc =>
    match pyContainsStr "version" v with
    | .error e => .error e
    | .ok false => isEncryptedLoop rest acc
    | .ok true =>
      match pySubscript v "version" with
      | .error e => .error e
      | .ok w =>
        if isVersionThree w then isEncryptedLoop rest true
        else isEncryptedLoop rest acc

/-- `_is_encrypted(data)`. -/
def isEncrypted (data : List (String × PyVal)) : Except PyErr Bool :=
  isEncryptedLoop data false

/-- The decision made by `DataBagItem._post_data`: `_decrypt_item` runs iff
the secret is truthy and `_is_encrypted(self._data)` holds (an exception
from `_is_encrypted` itself propagates). -/
def postDataDecrypts (secretTruthy : Bool) (data : List (String × PyVal)) :
    Except PyErr Bool :=
  match isEncrypted data with
  | .error e => .error e
  | .ok b => .ok (secretTruthy && b)

/-- The spec's C2 wording, verbatim as a predicate: every non-identifier
field is itself a mapping containing a `version` key. -/
def specEveryFieldEnveloped (data : List (String × PyVal)) : Bool :=
  data.all (fun kv =>
    kv.1 = "id" ||
    match kv.2 with
    | .pydict fs => fs.any (fun f => f.1 = "version")
    | _ => false)

theorem isVersionThree_iff (w : PyVal) : isVersionThree w = true ↔ w = .pyint 3 := by
  cases w <;> simp [isVersionThree]

theorem isEncryptedLoop_ok_iff :
    ∀ (l : List (String × PyVal)) (acc b : Bool),
      isEncryptedLoop l acc = .ok b →
      (b = true ↔ acc = true ∨ ∃ kv ∈ l,
          pyContainsStr "version" kv.2 = .ok true
          ∧ pySubscript kv.2 "version" = .ok (.pyint 3)) := by
  intro l
  induction l with
  | nil =>
      intro acc b h
      simp only [isEncryptedLoop, Except.ok.injEq] at h
      subst h
      simp
  | cons kv rest ih =>
      intro acc b h
      obtain ⟨k, v⟩ := kv
      simp only [isEncryptedLoop] at h
      cases hc : pyContainsStr "version" v with
      | error e => rw [hc] at h; exact absurd h (by simp)
      | ok c =>
          rw [hc] at h
          cases c with
          | false =>
              have hrec := ih acc b h
              rw [hrec]
              constructor
              · rintro (ha | ⟨kv2, hm, hp⟩)
                · exact Or.inl ha
                · exact Or.inr ⟨kv2, List.mem_cons_of_mem _ hm, hp⟩
              · rintro (ha | ⟨kv2, hm, hp⟩)
                · exact Or.inl ha
                · rcases List.mem_cons.1 hm with heq | hm2
                  · exfalso
                    rw [heq] at hp
                    rw [hc] at hp
                    simp at hp
                  · exact Or.inr ⟨kv2, hm2, hp⟩
          | true =>
              cases hs : pySubscript v "version" with
              | error e => rw [hs] at h; exact absurd h (by simp)
              | ok w =>
                  rw [hs] at h
                  dsimp only at h
                  by_cases hv : isVersionThree w = true
                  · rw [if_pos hv] at h
                    have hrec := ih true b h
                    have hw3 : w = .pyint 3 := (isVersionThree_iff w).1 hv
                    subst hw3
                    constructor
                    · intro _
                      exact Or.inr ⟨(k, v), List.mem_cons_self _ _, hc, hs⟩
                    · intro _
                      exact hrec.2 (Or.inl rfl)
                  · rw [if_neg hv] at h
                    have hrec := ih acc b h
                    rw [hrec]
                    constructor
                    · rintro (ha | ⟨kv2, hm, hp⟩)
                      · exact Or.inl ha
                      · exact Or.inr ⟨kv2, List.mem_cons_of_mem _ hm, hp⟩
                    · rintro (ha | ⟨kv2, hm, hp⟩)
                      · exact Or.inl ha
                      · rcases List.mem_cons.1 hm with heq | hm2
                        · exfalso
                          rw [heq] at hp
                          have h2 := hp.2
                          rw [hs] at h2
                          simp only [Except.ok.injEq] at h2
                          exact hv ((isVersionThree_iff w).2 h2)
                        · exact Or.inr ⟨kv2, hm2, hp⟩

/-- A concrete data-bag item record: one version-3 envelope field, one
mapping field without a `version` key, one version-1 envelope field. -/
def mixedItem : List (String × PyVal) :=
  [("id", .pystr "x"),
   ("a", .pydict [("version", .pyint 3)]),
   ("b", .pydict []),
   ("c", .pydict [("version", .pyint 1)])]

/-- C2 counterexample: `mixedItem` is treated as encrypted although its
non-identifier field `b` is a mapping without a `version` key (so the
claim's "every non-identifier field" condition fails), and with a secret
present the whole record — including the version-1 envelope `c` — is passed
to `_decrypt_item`. -/
theorem encrypted_detection_counterexample :
    isEncrypted mixedItem = .ok true
    ∧ specEveryFieldEnveloped mixedItem = false
    ∧ postDataDecrypts true mixedItem = .ok true := by
  exact ⟨rfl, rfl, rfl⟩

/-- C2 (amended): a record is treated as encrypted iff at least one of its
fields (identifier included) has a value containing a `version` member
equal to 3; when `_is_encrypted` returns false — in particular when every
`version` envelope is version 1 or 2, or no field has a `version` key —
the record is never passed to decryption, whatever the secret. -/
theorem encrypted_iff_some_version3 (data : List (String × PyVal))
    (b secretTruthy : Bool) (h : isEncrypted data = .ok b) :
    (b = true ↔ ∃ kv ∈ data,
        pyContainsStr "version" kv.2 = .ok true
        ∧ pySubscript kv.2 "version" = .ok (.pyint 3))
    ∧ (b = false → postDataDecrypts secretTruthy data = .ok false) := by
  constructor
  · have := isEncryptedLoop_ok_iff data false b h
    simpa using this
  · intro hb
    subst hb
    simp [postDataDecrypts, isEncrypted] at h ⊢
    rw [h]
    simp

/-- Closed instantiation of `encrypted_iff_some_version3` on `mixedItem`
(encrypted via field `a`) and on a version-1-only record (not encrypted,
not decrypted). -/
theorem encrypted_iff_some_version3_witness :
    (∃ kv ∈ mixedItem,
        pyContainsStr "version" kv.2 = .ok true
        ∧ pySubscript kv.2 "version" = .ok (.pyint 3))
    ∧ postDataDecrypts true
        [("id", PyVal.pystr "x"), ("c", PyVal.pydict [("version", PyVal.pyint 1)])]
        = .ok false := by
  constructor
  · exact ((encrypted_iff_some_version3 mixedItem true true rfl).1).1 rfl
  · exact (encrypted_iff_some_version3
      [("id", PyVal.pystr "x"), ("c", PyVal.pydict [("version", PyVal.pyint 1)])]
      false true rfl).2 rfl

/-! ### Base64 and the 60-column chunker

`_encrypt_item` emits `b64_chunker(b64encode(x).decode('utf-8'))` for the
nonce, ciphertext and tag; `_decrypt_item` feeds the stored strings back
through `b64decode`, which silently discards characters outside the
base64 alphabet (so the inserted newlines are ignored) and raises
`binascii.Error` (a `ValueError`) on bad padding.  Bytes are `Nat`s that
carry a `< 256` bound in the theorems. -/

/-- The standard base64 alphabet. -/
def b64Chars : List Char :=
  "ABCDEFGHIJKLMNOPQRSTUVWXYZabcdefghijklmnopqrstuvwxyz0123456789+/".toList

/-- Sextet value → base64 character. -/
def sextetChar (n : Nat) : Char := b64Chars.getD n '?'

/-- Base64 character → sextet value. -/
def charSextet (c : Char) : Option Nat := b64Chars.indexOf? c

/-- Membership in the base64 alphabet. -/
def isB64Char (c : Char) : Bool := b64Chars.contains c

/-- A character kept by `b64decode`: alphabet or padding. -/
def isKeptChar (c : Char) : Bool := isB64Char c || c = '='

/-- base64 encoding of a byte list, with padding. -/
def b64EncodeBytes : List Nat → List Char
  | [] => []
  | [a] => [sextetChar (a / 4), sextetChar (a % 4 * 16), '=', '=']
  | [a, b] => [sextetChar (a / 4), sextetChar (a % 4 * 16 + b / 16),
               sextetChar (b % 16 * 4), '=']
  | a :: b :: c :: rest =>
      sextetChar (a / 4) :: sextetChar (a % 4 * 16 + b / 16) ::
      sextetChar (b % 16 * 4 + c / 64) :: sextetChar (c % 64) ::
      b64EncodeBytes rest

/-- `base64.b64encode(bytes).decode('utf-8')`. -/
def b64encode (bs : List Nat) : String := String.mk (b64EncodeBytes bs)

/-- Sextet groups → bytes (quad at a time; a trailing group of 2 or 3
sextets yields 1 or 2 bytes, a group of 1 is invalid). -/
def b64DecodeSextets : List Nat → Except PyErr (List Nat)
  | [] => .ok []
  | [_] => .error .valueError
  | [w, x] => .ok [w * 4 + x / 16]
  | [w, x, y] => .ok [w * 4 + x / 16, x % 16 * 16 + y / 4]
  | w :: x :: y :: z :: rest =>
    match b64DecodeSextets rest with
    | .error e => .error e
    | .ok tail =>
        .ok ((w * 4 + x / 16) :: (x % 16 * 16 + y / 4) :: (y % 4 * 64 + z) :: tail)

/-- Decode a data part plus padding count: at most two `=` pads, padded
length a multiple of four, then sextet decoding. -/
def processParts (body : List Char) (pads : Nat) : Except PyErr (List Nat) :=
  if pads ≤ 2 ∧ (body.length + pads) % 4 = 0 then
    b64DecodeSextets (body.filterMap charSextet)
  else .error .valueError

/-- The decoding core applied to the kept (alphabet-or-padding) character
sequence: data part up to the first `=`, padding count, then decode. -/
def processKept (kept : List Char) : Except PyErr (List Nat) :=
  processParts (kept.takeWhile (fun c => c ≠ '='))
    (kept.length - (kept.takeWhile (fun c => c ≠ '=')).length)

/-- `base64.b64decode(s)` (validate=False): discard foreign characters,
then decode; padding errors are `ValueError`s. -/
def b64decodeChars (cs : List Char) : Except PyErr (List Nat) :=
  processKept (cs.filter isKeptChar)

/-- `base64.b64decode` on a Python str. -/
def b64decodeStr (s : String) : Except PyErr (List Nat) :=
  b64decodeChars s.toList

/-- `base64.b64decode` applied to an arbitrary value: strings are decoded,
anything else is a `TypeError`. -/
def b64decodePy : PyVal → Except PyErr (List Nat)
  | .pystr s => b64decodeStr s
  | _ => .error .typeError

/-- `textwrap.wrap(s, 60)` for a space-free string: blocks of 60. -/
def chunk60 (l : List Char) : List (List Char) :=
  match l with
  | [] => []
  | c :: rest => (c :: rest).take 60 :: chunk60 (rest.drop 59)
termination_by l.length
decreasing_by simp [List.length_drop]; omega

/-- `'\n'.join(parts)`. -/
def joinNL : List (List Char) → List Char
  | [] => []
  | [l] => l
  | l :: l2 :: rest => l ++ '\n' :: joinNL (l2 :: rest)

/-- `b64_chunker`: wrap at 60 columns, join with newlines, append a final
newline (ruby-compatible formatting). -/
def b64_chunker (s : String) : String :=
  String.mk (joinNL (chunk60 s.toList) ++ ['\n'])

theorem sextetChar_kept : ∀ n, n < 64 →
    isKeptChar (sextetChar n) = true
    ∧ sextetChar n ≠ '='
    ∧ sextetChar n ≠ '\n'
    ∧ charSextet (sextetChar n) = some n := by decide

theorem isKeptChar_eq : isKeptChar '=' = true := by decide

theorem isKeptChar_nl : isKeptChar '\n' = false := by decide

theorem chunk60_flatten (l : List Char) : (chunk60 l).flatten = l := by
  induction l using chunk60.induct with
  | case1 => simp [chunk60]
  | case2 c rest ih =>
      rw [chunk60]
      simp only [List.flatten_cons, ih]
      have : (c :: rest).drop 60 = rest.drop 59 := rfl
      rw [← this, List.take_append_drop]

theorem filter_joinNL (p : Char → Bool) (hp : p '\n' = false) :
    ∀ ls : List (List Char), (joinNL ls).filter p = ls.flatten.filter p := by
  intro ls
  induction ls using joinNL.induct with
  | case1 => rfl
  | case2 l => simp [joinNL]
  | case3 l l2 rest ih =>
      rw [joinNL]
      simp only [List.filter_append, List.filter_cons, hp, List.flatten_cons] at *
      rw [ih]
      simp [List.filter_append]

theorem chunker_filter (p : Char → Bool) (hp : p '\n' = false) (s : String) :
    (b64_chunker s).toList.filter p = s.toList.filter p := by
  show (joinNL (chunk60 s.toList) ++ ['\n']).filter p = s.toList.filter p
  rw [List.filter_append, filter_joinNL p hp, chunk60_flatten]
  simp [List.filter_cons, hp]

theorem takeWhile_pad2 (c1 c2 : Char) (h1 : c1 ≠ '=') (h2 : c2 ≠ '=') :
    [c1, c2, '=', '='].takeWhile (fun ch => ch ≠ '=') = [c1, c2] := by
  simp [List.takeWhile_cons, h1, h2]

theorem takeWhile_pad1 (c1 c2 c3 : Char) (h1 : c1 ≠ '=') (h2 : c2 ≠ '=')
    (h3 : c3 ≠ '=') :
    [c1, c2, c3, '='].takeWhile (fun ch => ch ≠ '=') = [c1, c2, c3] := by
  simp [List.takeWhile_cons, h1, h2, h3]

theorem takeWhile_quad (c1 c2 c3 c4 : Char) (l : List Char) (h1 : c1 ≠ '=')
    (h2 : c2 ≠ '=') (h3 : c3 ≠ '=') (h4 : c4 ≠ '=') :
    (c1 :: c2 :: c3 :: c4 :: l).takeWhile (fun ch => ch ≠ '=')
      = c1 :: c2 :: c3 :: c4 :: (l.takeWhile (fun ch => ch ≠ '=')) := by
  simp [List.takeWhile_cons, h1, h2, h3, h4]

theorem processKept_encode :
    ∀ bs : List Nat, (∀ x ∈ bs, x < 256) →
      processKept (b64EncodeBytes bs) = .ok bs := by
  intro bs
  induction bs using b64EncodeBytes.induct with
  | case1 => intro _; rfl
  | case2 a =>
      intro h
      have ha : a < 256 := h a (by simp)
      obtain ⟨_, hne1, _, hcs1⟩ := sextetChar_kept (a / 4) (by omega)
      obtain ⟨_, hne2, _, hcs2⟩ := sextetChar_kept (a % 4 * 16) (by omega)
      rw [b64EncodeBytes, processKept, takeWhile_pad2 _ _ hne1 hne2]
      simp only [List.length_cons, List.length_nil]
      rw [processParts, if_pos (by norm_num)]
      simp only [List.filterMap_cons, hcs1, hcs2, List.filterMap_nil]
      rw [b64DecodeSextets]
      congr 1
      congr 1
      omega
  | case3 a b =>
      intro h
      have ha : a < 256 := h a (by simp)
      have hb : b < 256 := h b (by simp)
      obtain ⟨_, hne1, _, hcs1⟩ := sextetChar_kept (a / 4) (by omega)
      obtain ⟨_, hne2, _, hcs2⟩ := sextetChar_kept (a % 4 * 16 + b / 16) (by omega)
      obtain ⟨_, hne3, _, hcs3⟩ := sextetChar_kept (b % 16 * 4) (by omega)
      rw [b64EncodeBytes, processKept, takeWhile_pad1 _ _ _ hne1 hne2 hne3]
      simp only [List.length_cons, List.length_nil]
      rw [processParts, if_pos (by norm_num)]
      simp only [List.filterMap_cons, hcs1, hcs2, hcs3, List.filterMap_nil]
      rw [b64DecodeSextets]
      congr 1
      have e1 : a / 4 * 4 + (a % 4 * 16 + b / 16) / 16 = a := by omega
      have e2 : (a % 4 * 16 + b / 16) % 16 * 16 + b % 16 * 4 / 4 = b := by omega
      rw [e1, e2]
  | case4 a b c rest ih =>
      intro h
      have ha : a < 256 := h a (by simp)
      have hb : b < 256 := h b (by simp)
      have hc : c < 256 := h c (by simp)
      have hrest : ∀ x ∈ rest, x < 256 := fun x hx => h x (by simp [hx])
      have ihr := ih hrest
      obtain ⟨_, hne1, _, hcs1⟩ := sextetChar_kept (a / 4) (by omega)
      obtain ⟨_, hne2, _, hcs2⟩ := sextetChar_kept (a % 4 * 16 + b / 16) (by omega)
      obtain ⟨_, hne3, _, hcs3⟩ := sextetChar_kept (b % 16 * 4 + c / 64) (by omega)
      obtain ⟨_, hne4, _, hcs4⟩ := sextetChar_kept (c % 64) (by omega)
      rw [b64EncodeBytes, processKept, takeWhile_quad _ _ _ _ _ hne1 hne2 hne3 hne4]
      rw [processKept] at ihr
      have hble : ((b64EncodeBytes rest).takeWhile (fun ch => ch ≠ '=')).length
          ≤ (b64EncodeBytes rest).length :=
        (List.takeWhile_sublist _).length_le
      have hcond : (b64EncodeBytes rest).length
            - ((b64EncodeBytes rest).takeWhile (fun ch => ch ≠ '=')).length ≤ 2
          ∧ (((b64EncodeBytes rest).takeWhile (fun ch => ch ≠ '=')).length
              + ((b64EncodeBytes rest).length
                - ((b64EncodeBytes rest).takeWhile (fun ch => ch ≠ '=')).length))
              % 4 = 0 := by
        by_contra hneg
        rw [processParts, if_neg hneg] at ihr
        exact absurd ihr (by simp)
      have hdec : b64DecodeSextets
            (((b64EncodeBytes rest).takeWhile (fun ch => ch ≠ '=')).filterMap
              charSextet) = .ok rest := by
        rw [processParts, if_pos hcond] at ihr
        exact ihr
      have hlen4 : (sextetChar (a / 4) :: sextetChar (a % 4 * 16 + b / 16) ::
            sextetChar (b % 16 * 4 + c / 64) :: sextetChar (c % 64) ::
            b64EncodeBytes rest).length
          = 4 + (b64EncodeBytes rest).length := by
        simp only [List.length_cons]
        omega
      rw [hlen4, processParts]
      rw [if_pos (by
        refine ⟨?_, ?_⟩
        · simp only [List.length_cons]
          omega
        · simp only [List.length_cons]
          omega)]
      simp only [List.filterMap_cons, hcs1, hcs2, hcs3, hcs4]
      rw [b64DecodeSextets, hdec]
      have e1 : a / 4 * 4 + (a % 4 * 16 + b / 16) / 16 = a := by omega
      have e2 : (a % 4 * 16 + b / 16) % 16 * 16 + (b % 16 * 4 + c / 64) / 4 = b := by
        omega
      have e3 : (b % 16 * 4 + c / 64) % 4 * 64 + c % 64 = c := by omega
      rw [e1, e2, e3]

theorem filter_encode :
    ∀ bs : List Nat, (∀ x ∈ bs, x < 256) →
      (b64EncodeBytes bs).filter isKeptChar = b64EncodeBytes bs := by
  intro bs
  induction bs using b64EncodeBytes.induct with
  | case1 => intro _; rfl
  | case2 a =>
      intro h
      have ha : a < 256 := h a (by simp)
      simp [b64EncodeBytes, List.filter_cons, isKeptChar_eq,
        (sextetChar_kept (a / 4) (by omega)).1,
        (sextetChar_kept (a % 4 * 16) (by omega)).1]
  | case3 a b =>
      intro h
      have ha : a < 256 := h a (by simp)
      have hb : b < 256 := h b (by simp)
      simp [b64EncodeBytes, List.filter_cons, isKeptChar_eq,
        (sextetChar_kept (a / 4) (by omega)).1,
        (sextetChar_kept (a % 4 * 16 + b / 16) (by omega)).1,
        (sextetChar_kept (b % 16 * 4) (by omega)).1]
  | case4 a b c rest ih =>
      intro h
      have ha : a < 256 := h a (by simp)
      have hb : b < 256 := h b (by simp)
      have hc : c < 256 := h c (by simp)
      have hrest : ∀ x ∈ rest, x < 256 := fun x hx => h x (by simp [hx])
      simp [b64EncodeBytes, List.filter_cons,
        (sextetChar_kept (a / 4) (by omega)).1,
        (sextetChar_kept (a % 4 * 16 + b / 16) (by omega)).1,
        (sextetChar_kept (b % 16 * 4 + c / 64) (by omega)).1,
        (sextetChar_kept (c % 64) (by omega)).1, ih hrest]

/-- The central base64 fact: decoding inverts `b64_chunker ∘ b64encode` on
byte lists. -/
theorem b64_roundtrip (bs : List Nat) (h : ∀ x ∈ bs, x < 256) :
    b64decodeStr (b64_chunker (b64encode bs)) = .ok bs := by
  show b64decodeChars (b64_chunker (b64encode bs)).toList = .ok bs
  rw [b64decodeChars, chunker_filter isKeptChar isKeptChar_nl,
    show (b64encode bs).toList = b64EncodeBytes bs from rfl,
    filter_encode bs h]
  exact processKept_encode bs h

/-! ### `_encrypt_item` / `_decrypt_item`

AES-256-GCM (pycryptodome) is an external collaborator: an abstract cipher
maps (key, nonce, serialized plaintext) to (ciphertext bytes, tag bytes)
and back, `ValueError` signalling MAC failure.  `json.dumps`/`json.loads`
and the SHA-256 key derivation are likewise abstract parameters.  Both item
functions read `data['id']` outside their `try` block, then loop over the
non-identifier fields accumulating results, with
`except (ValueError, KeyError)` swallowing only those two exception
classes; any other exception (e.g. `TypeError` from subscripting a
non-envelope value or serializing an unsupported type) propagates. -/

/-- The exception classes caught by `_encrypt_item`/`_decrypt_item`:
`except (ValueError, KeyError)`. -/
def caught : PyErr → Bool
  | .valueError => true
  | .keyError => true
  | .typeError => false

/-- Abstract AES-GCM: `enc key nonce plain = (ciphertext, tag)`
(`cipher.encrypt_and_digest`), `dec key nonce ciphertext tag`
(`cipher.decrypt_and_verify` + the UTF-8/JSON-bytes view of the result),
raising `ValueError` on MAC mismatch. -/
structure GcmCipher where
  enc : List Nat → List Nat → String → List Nat × List Nat
  dec : List Nat → List Nat → List Nat → List Nat → Except PyErr String

/-- The version-3 envelope `_encrypt_item` builds for one field:
`dict(zip(json_k, json_v))` then `update({'version': 3,
'cipher': 'aes-256-gcm'})`. -/
def envelopeFor (C : GcmCipher) (key nonce : List Nat) (plain : String) : PyVal :=
  .pydict [("iv", .pystr (b64_chunker (b64encode nonce))),
           ("encrypted_data",
             .pystr (b64_chunker (b64encode (C.enc key nonce plain).1))),
           ("auth_tag", .pystr (b64_chunker (b64encode (C.enc key nonce plain).2))),
           ("version", .pyint 3),
           ("cipher", .pystr "aes-256-gcm")]

/-- The field loop of `_encrypt_item`: skip `id`, serialize, encrypt under
the next fresh nonce (`AES.new(key, AES.MODE_GCM)` draws one per field),
wrap into an envelope.  Returns the accumulated fields and the first
exception if one occurred (fields after it are not processed). -/
def encryptFields (C : GcmCipher) (dumps : PyVal → Except PyErr String)
    (key : List Nat) (nonces : Nat → List Nat) :
    Nat → List (String × PyVal) → List (String × PyVal) × Option PyErr
  | _, [] => ([], none)
  | i, (k, v) :: rest =>
    if k = "id" then encryptFields C dumps key nonces i rest
    else
      match dumps v with
      | .error e => ([], some e)
      | .ok plain =>
        match encryptFields C dumps key nonces (i + 1) rest with
        | (tl, e) => ((k, envelopeFor C key (nonces i) plain) :: tl, e)

/-- `_encrypt_item(data, secret)`: `db_item = {'id': data['id']}` (outside
the `try`), then the field loop; a caught exception yields the partial
item, an uncaught one propagates. -/
def encryptItem (C : GcmCipher) (dumps : PyVal → Except PyErr String)
    (keyOf : List Nat → List Nat) (nonces : Nat → List Nat)
    (secret : List Nat) (data : List (String × PyVal)) :
    Except PyErr (List (String × PyVal)) :=
  match pyLookup data "id" with
  | none => .error .keyError
  | some idv =>
    match encryptFields C dumps (keyOf secret) nonces 0 data with
    | (flds, none) => .ok (("id", idv) :: flds)
    | (flds, some e) => if caught e then .ok (("id", idv) :: flds) else .error e

/-- Decrypting one envelope:
`{k: b64decode(data[item_key][k]) for k in json_k}`, then
`decrypt_and_verify`, then `json.loads`. -/
def fieldDecrypt (C : GcmCipher) (loads : String → Except PyErr PyVal)
    (key : List Nat) (v : PyVal) : Except PyErr PyVal :=
  match pySubscript v "iv" with
  | .error e => .error e
  | .ok ivv =>
    match b64decodePy ivv with
    | .error e => .error e
    | .ok iv =>
      match pySubscript v "encrypted_data" with
      | .error e => .error e
      | .ok edv =>
        match b64decodePy edv with
        | .error e => .error e
        | .ok ed =>
          match pySubscript v "auth_tag" with
          | .error e => .error e
          | .ok tgv =>
            match b64decodePy tgv with
            | .error e => .error e
            | .ok tg =>
              match C.dec key iv ed tg with
              | .error e => .error e
              | .ok plain => loads plain

/-- The field loop of `_decrypt_item`: skip `id`, decrypt each envelope,
stop at the first exception keeping the fields already processed. -/
def decryptFields (C : GcmCipher) (loads : String → Except PyErr PyVal)
    (key : List Nat) : List (String × PyVal) → List (String × PyVal) × Option PyErr
  | [] => ([], none)
  | (k, v) :: rest =>
    if k = "id" then decryptFields C loads key rest
    else
      match fieldDecrypt C loads key v with
      | .error e => ([], some e)
      | .ok pv =>
        match decryptFields C loads key rest with
        | (tl, e) => ((k, pv) :: tl, e)

/-- `_decrypt_item(data, secret)`: `db_item = {'id': data['id']}` (outside
the `try`), then the field loop; caught exceptions yield the partial item,
uncaught ones propagate. -/
def decryptItem (C : GcmCipher) (loads : String → Except PyErr PyVal)
    (keyOf : List Nat → List Nat) (secret : List Nat)
    (data : List (String × PyVal)) : Except PyErr (List (String × PyVal)) :=
  match pyLookup data "id" with
  | none => .error .keyError
  | some idv =>
    match decryptFields C loads (keyOf secret) data with
    | (flds, none) => .ok (("id", idv) :: flds)
    | (flds, some e) => if caught e then .ok (("id", idv) :: flds) else .error e

theorem decryptFields_append (C : GcmCipher) (loads : String → Except PyErr PyVal)
    (key : List Nat) :
    ∀ (pre rest fl : List (String × PyVal)),
      decryptFields C loads key pre = (fl, none) →
      decryptFields C loads key (pre ++ rest)
        = (fl ++ (decryptFields C loads key rest).1,
           (decryptFields C loads key rest).2) := by
  intro pre
  induction pre with
  | nil =>
      intro rest fl h
      rw [decryptFields] at h
      simp only [Prod.mk.injEq] at h
      rw [List.nil_append, ← h.1, List.nil_append]
  | cons kv tail ih =>
      intro rest fl h
      obtain ⟨k, v⟩ := kv
      by_cases hk : k = "id"
      · rw [decryptFields, if_pos hk] at h
        rw [List.cons_append, decryptFields, if_pos hk]
        exact ih rest fl h
      · rw [decryptFields, if_neg hk] at h
        rw [List.cons_append, decryptFields, if_neg hk]
        cases hfd : fieldDecrypt C loads key v with
        | error e =>
            rw [hfd] at h
            simp only [Prod.mk.injEq] at h
            exact absurd h.2 (by simp)
        | ok pv =>
            rw [hfd] at h
            cases hrec : decryptFields C loads key tail with
            | mk tl e2 =>
                rw [hrec] at h
                simp only [Prod.mk.injEq] at h
                obtain ⟨hfl, he⟩ := h
                subst he
                have := ih rest tl hrec
                rw [this, ← hfl]
                simp

theorem encryptFields_append (C : GcmCipher) (dumps : PyVal → Except PyErr String)
    (key : List Nat) (nonces : Nat → List Nat) :
    ∀ (pre : List (String × PyVal)) (i : Nat) (rest fl : List (String × PyVal)),
      encryptFields C dumps key nonces i pre = (fl, none) →
      ∃ j, encryptFields C dumps key nonces i (pre ++ rest)
        = (fl ++ (encryptFields C dumps key nonces j rest).1,
           (encryptFields C dumps key nonces j rest).2) := by
  intro pre
  induction pre with
  | nil =>
      intro i rest fl h
      rw [encryptFields] at h
      simp only [Prod.mk.injEq] at h
      refine ⟨i, ?_⟩
      rw [List.nil_append, ← h.1, List.nil_append]
  | cons kv tail ih =>
      intro i rest fl h
      obtain ⟨k, v⟩ := kv
      by_cases hk : k = "id"
      · rw [encryptFields, if_pos hk] at h
        rw [List.cons_append, encryptFields, if_pos hk]
        exact ih i rest fl h
      · rw [encryptFields, if_neg hk] at h
        rw [List.cons_append, encryptFields, if_neg hk]
        cases hd : dumps v with
        | error e =>
            rw [hd] at h
            simp only [Prod.mk.injEq] at h
            exact absurd h.2 (by simp)
        | ok plain =>
            rw [hd] at h
            cases hrec : encryptFields C dumps key nonces (i + 1) tail with
            | mk tl e2 =>
                rw [hrec] at h
                simp only [Prod.mk.injEq] at h
                obtain ⟨hfl, he⟩ := h
                subst he
                obtain ⟨j, hj⟩ := ih (i + 1) rest tl hrec
                refine ⟨j, ?_⟩
                rw [hj, ← hfl]
                simp

/-- C8 counterexample: the claim says any cryptographic or structural
failure during decryption is caught, but only `ValueError` and `KeyError`
are; a `TypeError` — here from subscripting the plain-string field of a
mixed item with `['iv']` — propagates to the caller instead of yielding a
partial item. -/
def nullCipher : GcmCipher :=
  ⟨fun _ _ _ => ([], []), fun _ _ _ _ => .error .valueError⟩

/-- A `json.loads` stand-in that always fails (never reached in the
counterexample). -/
def nullLoads : String → Except PyErr PyVal := fun _ => .error .valueError

theorem crypto_failure_counterexample :
    decryptItem nullCipher nullLoads id []
        [("id", PyVal.pystr "x"), ("f", PyVal.pystr "plain")]
      = .error .typeError
    ∧ ∀ out, decryptItem nullCipher nullLoads id []
        [("id", PyVal.pystr "x"), ("f", PyVal.pystr "plain")] ≠ .ok out := by
  constructor
  · rfl
  · intro out h
    rw [show decryptItem nullCipher nullLoads id []
        [("id", PyVal.pystr "x"), ("f", PyVal.pystr "plain")]
      = .error .typeError from rfl] at h
    exact absurd h (by simp)

/-- C8 (amended): a `ValueError` or `KeyError` raised while processing a
field of a data-bag item during decryption or encryption is caught and
logged, and the item surfaces with the identifier plus exactly the fields
processed before the failing one; those two are the only exception classes
caught (`except (ValueError, KeyError)`), so in particular a `TypeError`
propagates to the caller. -/
theorem crypto_caught_failures_partial (C : GcmCipher)
    (dumps : PyVal → Except PyErr String) (loads : String → Except PyErr PyVal)
    (keyOf : List Nat → List Nat) (nonces : Nat → List Nat) (secret : List Nat) :
    (∀ (data pre post preFlds : List (String × PyVal)) (idv v : PyVal)
        (k : String) (e : PyErr),
        pyLookup data "id" = some idv →
        data = pre ++ (k, v) :: post →
        k ≠ "id" →
        decryptFields C loads (keyOf secret) pre = (preFlds, none) →
        fieldDecrypt C loads (keyOf secret) v = .error e →
        caught e = true →
        decryptItem C loads keyOf secret data = .ok (("id", idv) :: preFlds))
    ∧ (∀ (data pre post preFlds : List (String × PyVal)) (idv v : PyVal)
        (k : String) (e : PyErr),
        pyLookup data "id" = some idv →
        data = pre ++ (k, v) :: post →
        k ≠ "id" →
        encryptFields C dumps (keyOf secret) nonces 0 pre = (preFlds, none) →
        dumps v = .error e →
        caught e = true →
        encryptItem C dumps keyOf nonces secret data = .ok (("id", idv) :: preFlds))
    ∧ caught .valueError = true ∧ caught .keyError = true
    ∧ caught .typeError = false := by
  refine ⟨?_, ?_, rfl, rfl, rfl⟩
  · intro data pre post preFlds idv v k e hid hsplit hk hpre hfail hcaught
    have htail : decryptFields C loads (keyOf secret) ((k, v) :: post)
        = ([], some e) := by
      rw [decryptFields, if_neg hk, hfail]
    subst hsplit
    have hall := decryptFields_append C loads (keyOf secret) pre
      ((k, v) :: post) preFlds hpre
    rw [htail] at hall
    simp only [List.append_nil] at hall
    simp only [decryptItem, hid, hall, hcaught, if_true]
  · intro data pre post preFlds idv v k e hid hsplit hk hpre hfail hcaught
    subst hsplit
    obtain ⟨j, hj⟩ := encryptFields_append C dumps (keyOf secret) nonces pre 0
      ((k, v) :: post) preFlds hpre
    have htail : encryptFields C dumps (keyOf secret) nonces j ((k, v) :: post)
        = ([], some e) := by
      rw [encryptFields, if_neg hk, hfail]
    rw [htail] at hj
    simp only [List.append_nil] at hj
    simp only [encryptItem, hid, hj, hcaught, if_true]

/-- A `json.dumps` stand-in that always raises a `ValueError`. -/
def nullDumps : PyVal → Except PyErr String := fun _ => .error .valueError

/-- Closed instantiation of `crypto_caught_failures_partial`: a data-bag
item whose second field fails with a caught error (bad base64 on decrypt,
failing serializer on encrypt) surfaces as the identifier-only partial
item. -/
theorem crypto_caught_failures_partial_witness :
    decryptItem nullCipher nullLoads id []
        [("id", PyVal.pystr "x"), ("g", PyVal.pydict [("iv", PyVal.pystr "A")])]
      = .ok [("id", PyVal.pystr "x")]
    ∧ encryptItem nullCipher nullDumps id (fun _ => []) []
        [("id", PyVal.pystr "x"), ("h", PyVal.pylist [])]
      = .ok [("id", PyVal.pystr "x")]
    ∧ caught .valueError = true ∧ caught .keyError = true
    ∧ caught .typeError = false := by
  have h := crypto_caught_failures_partial nullCipher nullDumps nullLoads id
    (fun _ => []) []
  refine ⟨?_, ?_, h.2.2.1, h.2.2.2.1, h.2.2.2.2⟩
  · exact h.1 [("id", PyVal.pystr "x"), ("g", PyVal.pydict [("iv", PyVal.pystr "A")])]
      [("id", PyVal.pystr "x")] [] [] (PyVal.pystr "x")
      (PyVal.pydict [("iv", PyVal.pystr "A")]) "g" .valueError
      rfl rfl (by decide) rfl rfl rfl
  · exact h.2.1 [("id", PyVal.pystr "x"), ("h", PyVal.pylist [])]
      [("id", PyVal.pystr "x")] [] [] (PyVal.pystr "x")
      (PyVal.pylist []) "h" .valueError
      rfl rfl (by decide) rfl rfl rfl

/-! ### Round trip (C3): decrypt ∘ encrypt = id -/

/-- The conditions the external collaborators satisfy on one field value:
`json.loads` inverts `json.dumps`, and AES-GCM decryption inverts
encryption on the serialized value under every nonce the item draws, with
byte-valued (\< 256) ciphertext and tag. -/
def GoodField (C : GcmCipher) (dumps : PyVal → Except PyErr String)
    (loads : String → Except PyErr PyVal) (key : List Nat)
    (nonces : Nat → List Nat) (v : PyVal) : Prop :=
  ∃ s, dumps v = .ok s ∧ loads s = .ok v ∧
    ∀ i, C.dec key (nonces i) (C.enc key (nonces i) s).1 (C.enc key (nonces i) s).2
          = .ok s
      ∧ (∀ b ∈ (C.enc key (nonces i) s).1, b < 256)
      ∧ (∀ b ∈ (C.enc key (nonces i) s).2, b < 256)

theorem fieldDecrypt_envelope (C : GcmCipher)
    (loads : String → Except PyErr PyVal) (key nonce : List Nat)
    (s : String) (v : PyVal)
    (hn : ∀ b ∈ nonce, b < 256)
    (hct : ∀ b ∈ (C.enc key nonce s).1, b < 256)
    (htg : ∀ b ∈ (C.enc key nonce s).2, b < 256)
    (hdec : C.dec key nonce (C.enc key nonce s).1 (C.enc key nonce s).2 = .ok s)
    (hloads : loads s = .ok v) :
    fieldDecrypt C loads key (envelopeFor C key nonce s) = .ok v := by
  have hiv : pySubscript (envelopeFor C key nonce s) "iv"
      = .ok (.pystr (b64_chunker (b64encode nonce))) := rfl
  have hed : pySubscript (envelopeFor C key nonce s) "encrypted_data"
      = .ok (.pystr (b64_chunker (b64encode (C.enc key nonce s).1))) := rfl
  have htag : pySubscript (envelopeFor C key nonce s) "auth_tag"
      = .ok (.pystr (b64_chunker (b64encode (C.enc key nonce s).2))) := rfl
  rw [fieldDecrypt, hiv]
  simp only [b64decodePy, b64_roundtrip nonce hn]
  rw [hed]
  simp only [b64decodePy, b64_roundtrip _ hct]
  rw [htag]
  simp only [b64decodePy, b64_roundtrip _ htg]
  rw [hdec]
  exact hloads

theorem decryptFields_encryptFields (C : GcmCipher)
    (dumps : PyVal → Except PyErr String) (loads : String → Except PyErr PyVal)
    (key : List Nat) (nonces : Nat → List Nat)
    (hnon : ∀ i, ∀ b ∈ nonces i, b < 256) :
    ∀ (l : List (String × PyVal)) (i : Nat),
      (∀ kv ∈ l, kv.1 ≠ "id" → GoodField C dumps loads key nonces kv.2) →
      (encryptFields C dumps key nonces i l).2 = none
      ∧ decryptFields C loads key (encryptFields C dumps key nonces i l).1
          = (l.filter (fun kv => kv.1 ≠ "id"), none) := by
  intro l
  induction l with
  | nil => intro i _; exact ⟨rfl, rfl⟩
  | cons kv rest ih =>
      intro i hall
      obtain ⟨k, v⟩ := kv
      have hrest : ∀ kv ∈ rest, kv.1 ≠ "id" →
          GoodField C dumps loads key nonces kv.2 :=
        fun kv hm => hall kv (List.mem_cons_of_mem _ hm)
      by_cases hk : k = "id"
      · rw [encryptFields, if_pos hk]
        have hfc : ((k, v) :: rest).filter (fun kv => kv.1 ≠ "id")
            = rest.filter (fun kv => kv.1 ≠ "id") := by
          simp [List.filter_cons, hk]
        rw [hfc]
        exact ih i hrest
      · obtain ⟨s, hdumps, hloads, hciph⟩ :=
          hall (k, v) (List.mem_cons_self _ _) hk
        rw [encryptFields, if_neg hk, hdumps]
        cases henc : encryptFields C dumps key nonces (i + 1) rest with
        | mk tl e =>
            have hihr := ih (i + 1) hrest
            rw [henc] at hihr
            obtain ⟨he, hdecr⟩ := hihr
            simp only at he hdecr
            subst he
            constructor
            · rfl
            · obtain ⟨hdec, hct, htg⟩ := hciph i
              rw [decryptFields, if_neg hk,
                fieldDecrypt_envelope C loads key (nonces i) s v (hnon i)
                  hct htg hdec hloads, hdecr]
              simp [List.filter_cons, hk]

theorem pyLookup_id_filter :
    ∀ (data : List (String × PyVal)) (k : String), k ≠ "id" →
      pyLookup (data.filter (fun kv => kv.1 ≠ "id")) k = pyLookup data k := by
  intro data k hk
  induction data with
  | nil => rfl
  | cons kv rest ih =>
      obtain ⟨k0, v0⟩ := kv
      by_cases h0 : k0 = "id"
      · subst h0
        have hne : ¬ (("id" : String) = k) := fun h => hk h.symm
        simpa [pyLookup, List.filter_cons, List.find?_cons, hne] using ih
      · by_cases hkk : k0 = k
        · subst hkk
          simp [pyLookup, List.filter_cons, List.find?_cons, h0]
        · simpa [pyLookup, List.filter_cons, List.find?_cons, h0, hkk] using ih

theorem encryptFields_none (C : GcmCipher) (dumps : PyVal → Except PyErr String)
    (key : List Nat) (nonces : Nat → List Nat) :
    ∀ (l : List (String × PyVal)) (i : Nat),
      (∀ kv ∈ l, kv.1 ≠ "id" → ∃ s, dumps kv.2 = .ok s) →
      (encryptFields C dumps key nonces i l).2 = none := by
  intro l
  induction l with
  | nil => intro i _; rfl
  | cons kv rest ih =>
      intro i hall
      obtain ⟨k, v⟩ := kv
      have hrest : ∀ kv ∈ rest, kv.1 ≠ "id" → ∃ s, dumps kv.2 = .ok s :=
        fun kv hm => hall kv (List.mem_cons_of_mem _ hm)
      by_cases hk : k = "id"
      · rw [encryptFields, if_pos hk]
        exact ih i hrest
      · obtain ⟨s, hd⟩ := hall (k, v) (List.mem_cons_self _ _) hk
        rw [encryptFields, if_neg hk, hd]
        cases henc : encryptFields C dumps key nonces (i + 1) rest with
        | mk tl e =>
            have := ih (i + 1) hrest
            rw [henc] at this
            simpa using this

theorem encryptFields_first (C : GcmCipher) (dumps : PyVal → Except PyErr String)
    (key : List Nat) (nonces : Nat → List Nat) :
    ∀ (l : List (String × PyVal)) (i : Nat) (k0 : String) (v0 : PyVal) (s : String),
      l.find? (fun kv => kv.1 ≠ "id") = some (k0, v0) →
      dumps v0 = .ok s →
      ∃ tl e, encryptFields C dumps key nonces i l
        = ((k0, envelopeFor C key (nonces i) s) :: tl, e) := by
  intro l
  induction l with
  | nil => intro i k0 v0 s hf _; exact absurd hf (by simp)
  | cons kv rest ih =>
      intro i k0 v0 s hf hd
      obtain ⟨k, v⟩ := kv
      by_cases hk : k = "id"
      · subst hk
        rw [List.find?_cons_of_neg _ (by simp)] at hf
        rw [encryptFields, if_pos rfl]
        exact ih i k0 v0 s hf hd
      · rw [List.find?_cons_of_pos _ (by simpa using hk)] at hf
        simp only [Option.some.injEq, Prod.mk.injEq] at hf
        obtain ⟨hk0, hv0⟩ := hf
        subst hk0
        subst hv0
        rw [encryptFields, if_neg hk, hd]
        cases henc : encryptFields C dumps key nonces (i + 1) rest with
        | mk tl e => exact ⟨tl, e, rfl⟩

/-- C3: for every data-bag item whose field values serialize and whose
cipher satisfies the AES-GCM round-trip conditions on those values
(`GoodField`), decrypting the encryption of the item under the same secret
yields a dict equal (as a Python dict: same lookups) to the original item —
the round trip through the base64/60-column-wrapped version-3 envelope —
and encrypting the item under a second draw of nonces that differs in the
first fresh nonce stores a different envelope for the first non-identifier
field (nonce freshness makes repeated encryptions differ). -/
theorem databag_encrypt_decrypt_roundtrip
    (C : GcmCipher) (dumps : PyVal → Except PyErr String)
    (loads : String → Except PyErr PyVal) (keyOf : List Nat → List Nat)
    (nonces nonces2 : Nat → List Nat) (secret : List Nat)
    (data : List (String × PyVal)) (idv : PyVal)
    (hid : pyLookup data "id" = some idv)
    (hgood : ∀ kv ∈ data, kv.1 ≠ "id" →
        GoodField C dumps loads (keyOf secret) nonces kv.2)
    (hnon : ∀ i, ∀ b ∈ nonces i, b < 256)
    (hnon2 : ∀ i, ∀ b ∈ nonces2 i, b < 256)
    (hdiff : nonces 0 ≠ nonces2 0) :
    (∃ out, encryptItem C dumps keyOf nonces secret data = .ok out
      ∧ ∃ rt, decryptItem C loads keyOf secret out = .ok rt
        ∧ ∀ k, pyLookup rt k = pyLookup data k)
    ∧ ∀ k0 v0, data.find? (fun kv => kv.1 ≠ "id") = some (k0, v0) →
        ∃ out1 out2 env1 env2,
          encryptItem C dumps keyOf nonces secret data = .ok out1
          ∧ encryptItem C dumps keyOf nonces2 secret data = .ok out2
          ∧ pyLookup out1 k0 = some env1
          ∧ pyLookup out2 k0 = some env2
          ∧ env1 ≠ env2 := by
  constructor
  · have hroundtrip := decryptFields_encryptFields C dumps loads (keyOf secret)
      nonces hnon data 0 hgood
    cases henc : encryptFields C dumps (keyOf secret) nonces 0 data with
    | mk envs e =>
        rw [henc] at hroundtrip
        obtain ⟨he, hdecr⟩ := hroundtrip
        simp only at he hdecr
        subst he
        have hidlk : pyLookup (("id", idv) :: envs) "id" = some idv := by
          rw [pyLookup, List.find?_cons_of_pos _ (by simp)]
          rfl
        have hskip : decryptFields C loads (keyOf secret) (("id", idv) :: envs)
            = (data.filter (fun kv => kv.1 ≠ "id"), none) := by
          rw [decryptFields, if_pos rfl]
          exact hdecr
        refine ⟨("id", idv) :: envs, ?_,
          ("id", idv) :: data.filter (fun kv => kv.1 ≠ "id"), ?_, ?_⟩
        · simp only [encryptItem, hid, henc]
        · simp only [decryptItem, hidlk, hskip]
        · intro k2
          by_cases hk2 : k2 = "id"
          · subst hk2
            rw [pyLookup, List.find?_cons_of_pos _ (by simp)]
            exact hid.symm
          · rw [pyLookup, List.find?_cons_of_neg _
              (by simpa using (fun h => hk2 h.symm : ¬ ("id" = k2)))]
            exact pyLookup_id_filter data k2 hk2
  · intro k0 v0 hfind
    have hk0 : k0 ≠ "id" := by
      have := List.find?_some hfind
      simpa using this
    obtain ⟨s0, hd0, _, _⟩ :=
      hgood (k0, v0) (List.mem_of_find?_eq_some hfind) hk0
    obtain ⟨tl1, e1, h1⟩ :=
      encryptFields_first C dumps (keyOf secret) nonces data 0 k0 v0 s0 hfind hd0
    obtain ⟨tl2, e2, h2⟩ :=
      encryptFields_first C dumps (keyOf secret) nonces2 data 0 k0 v0 s0 hfind hd0
    have hex : ∀ kv ∈ data, kv.1 ≠ "id" → ∃ s, dumps kv.2 = .ok s := by
      intro kv hm hkk
      obtain ⟨s, hs, _⟩ := hgood kv hm hkk
      exact ⟨s, hs⟩
    have he1 : e1 = none := by
      have := encryptFields_none C dumps (keyOf secret) nonces data 0 hex
      rw [h1] at this
      simpa using this
    have he2 : e2 = none := by
      have := encryptFields_none C dumps (keyOf secret) nonces2 data 0 hex
      rw [h2] at this
      simpa using this
    subst he1
    subst he2
    have hlk1 : pyLookup
        (("id", idv) :: (k0, envelopeFor C (keyOf secret) (nonces 0) s0) :: tl1) k0
        = some (envelopeFor C (keyOf secret) (nonces 0) s0) := by
      rw [pyLookup, List.find?_cons_of_neg _
        (by simpa using (fun h => hk0 h.symm : ¬ ("id" = k0))),
        List.find?_cons_of_pos _ (by simp)]
      rfl
    have hlk2 : pyLookup
        (("id", idv) :: (k0, envelopeFor C (keyOf secret) (nonces2 0) s0) :: tl2) k0
        = some (envelopeFor C (keyOf secret) (nonces2 0) s0) := by
      rw [pyLookup, List.find?_cons_of_neg _
        (by simpa using (fun h => hk0 h.symm : ¬ ("id" = k0))),
        List.find?_cons_of_pos _ (by simp)]
      rfl
    refine ⟨_, _, envelopeFor C (keyOf secret) (nonces 0) s0,
      envelopeFor C (keyOf secret) (nonces2 0) s0, ?_, ?_, hlk1, hlk2, ?_⟩
    · simp only [encryptItem, hid, h1]
    · simp only [encryptItem, hid, h2]
    · intro heq
      apply hdiff
      simp only [envelopeFor, PyVal.pydict.injEq, List.cons.injEq,
        Prod.mk.injEq, PyVal.pystr.injEq, true_and] at heq
      have hstr := heq.1
      have hdecs := congrArg b64decodeStr hstr
      rw [b64_roundtrip _ (hnon 0), b64_roundtrip _ (hnon2 0)] at hdecs
      exact Except.ok.inj hdecs

/-- A serializer stand-in for the round-trip witness. -/
def testDumps : PyVal → Except PyErr String := fun v =>
  match v with
  | .pyint _ => .ok "5"
  | _ => .error .typeError

/-- A parser stand-in inverting `testDumps` on the witness value. -/
def testLoads : String → Except PyErr PyVal := fun s =>
  if s = "5" then .ok (.pyint 5) else .error .valueError

/-- A cipher stand-in satisfying the AES-GCM round-trip conditions at the
witness value. -/
def testCipher : GcmCipher :=
  ⟨fun _ _ p => (if p = "5" then [1] else [], []),
   fun _ _ ct _ => if ct = [1] then .ok "5" else .error .valueError⟩

/-- Closed instantiation of `databag_encrypt_decrypt_roundtrip` at a
one-field item, nonce streams drawing `[7]` versus `[9]`. -/
theorem databag_encrypt_decrypt_roundtrip_witness :
    (∃ out, encryptItem testCipher testDumps id (fun _ => [7]) [42]
        [("id", PyVal.pystr "x"), ("f", PyVal.pyint 5)] = .ok out
      ∧ ∃ rt, decryptItem testCipher testLoads id [42] out = .ok rt
        ∧ ∀ k, pyLookup rt k
            = pyLookup [("id", PyVal.pystr "x"), ("f", PyVal.pyint 5)] k)
    ∧ ∃ out1 out2 env1 env2,
        encryptItem testCipher testDumps id (fun _ => [7]) [42]
          [("id", PyVal.pystr "x"), ("f", PyVal.pyint 5)] = .ok out1
        ∧ encryptItem testCipher testDumps id (fun _ => [9]) [42]
          [("id", PyVal.pystr "x"), ("f", PyVal.pyint 5)] = .ok out2
        ∧ pyLookup out1 "f" = some env1
        ∧ pyLookup out2 "f" = some env2
        ∧ env1 ≠ env2 := by
  have h := databag_encrypt_decrypt_roundtrip testCipher testDumps testLoads id
    (fun _ => [7]) (fun _ => [9]) [42]
    [("id", PyVal.pystr "x"), ("f", PyVal.pyint 5)] (PyVal.pystr "x")
    rfl
    (by
      intro kv hm hk
      simp only [List.mem_cons, List.not_mem_nil, or_false] at hm
      rcases hm with h | h
      · subst h
        exact absurd rfl hk
      · subst h
        exact ⟨"5", rfl, rfl, fun i =>
          ⟨rfl,
           by
             show ∀ b ∈ (testCipher.enc [42] [7] "5").1, b < 256
             decide,
           by
             show ∀ b ∈ (testCipher.enc [42] [7] "5").2, b < 256
             decide⟩⟩)
    (fun i => by
      show ∀ b ∈ ([7] : List Nat), b < 256
      decide)
    (fun i => by
      show ∀ b ∈ ([9] : List Nat), b < 256
      decide)
    (by decide)
  exact ⟨h.1, h.2 "f" (.pyint 5) rfl⟩

end Cheflib
